import Mathlib

/-!
Verification of the `no-ffmpeg` operation-to-command compiler.

This file gives a shallow embedding, in Lean, of the parts of the
TypeScript source that the specification's testable properties talk
about: the speed-factor `atempo` decomposition (`SpeedOperation`), the
filter-graph accumulator (`FilterChain`), the command representation
(`FFmpegCommand`) with its finalizing `validate`, the command builder's
`build` step (`FFmpegCommandBuilder`), overlay/text validation, the
drawtext text escaping, and the concat operation.  Mutable-object
methods are embedded as state-passing functions; JavaScript exceptions
are embedded with `Except`; the filesystem is a boolean oracle
parameter; JavaScript number-to-string rendering of non-integer values
is an abstract parameter where no claim depends on its digits.
-/

namespace NoFFmpeg

/-! ## Rendering utilities -/

/-- Decimal digit list of a natural number, with explicit fuel so the
definition is structurally recursive (and hence evaluates inside the
kernel).  This models the JavaScript template-literal rendering of the
non-negative integer counters that the source interpolates into stream
labels (`[temp${n}]`, `[out${n}]`) and concat input indices. -/
def natDigitsAux : Nat → Nat → List Char
  | 0, _ => []
  | fuel+1, n =>
    if n < 10 then [Nat.digitChar n]
    else natDigitsAux fuel (n / 10) ++ [Nat.digitChar (n % 10)]

/-- Decimal digits of `n` (base 10, most significant first). -/
def natDigits (n : Nat) : List Char := natDigitsAux (n + 1) n

/-- Decimal string of a natural number, as JavaScript renders a
non-negative integer. -/
def natStr (n : Nat) : String := String.mk (natDigits n)

/-- JavaScript `Array.prototype.join(sep)`: the empty string for an empty
list, otherwise the elements separated by `sep`. -/
def joinSep (sep : String) : List String → String
  | [] => ""
  | [s] => s
  | s :: rest => s ++ sep ++ joinSep sep rest

/-- Character-level global replacement: `replaceChar c r l` replaces every
occurrence of the character `c` in `l` by the character list `r`.  This is
the semantics of JavaScript `String.prototype.replace` with a global
single-character regular expression, the only form the source uses. -/
def replaceChar (c : Char) (r : List Char) : List Char → List Char
  | [] => []
  | a :: as => (if a = c then r else [a]) ++ replaceChar c r as

/-! ## Errors and JavaScript truthiness -/

/-- The typed error conditions raised by the library
(`MissingParameterError`, `InvalidParameterError`, `InputFileError`). -/
inductive FFmpegError where
  | missingParameter (paramName : String)
  | invalidParameter (paramName message : String)
  | inputFile (filePath message : String)
deriving DecidableEq, Repr

/-- JavaScript falsiness of a nullable string (`!x`): true when the value
is absent or the empty string. -/
def jsFalsy : Option String → Bool
  | none => true
  | some s => s = ""

/-- JavaScript truthiness of an optional string (`if (x)`). -/
def jsTruthyStr (x : Option String) : Bool := !(jsFalsy x)

/-- JavaScript truthiness of an optional number (`if (x)`): false when the
value is absent or zero. -/
def jsTruthyNum : Option ℚ → Bool
  | none => false
  | some v => v ≠ 0

/-! ## FFmpegCommand (src/commands/FFmpegCommand.ts + BaseCommand.ts) -/

/-- The command representation: program name, the recorded input/output
paths, and the ordered argument list (`BaseCommand.args`). -/
structure FFmpegCommand where
  program : String
  inputPath : Option String := none
  outputPath : Option String := none
  args : List String := []
deriving DecidableEq, Repr

/-- Source `BaseCommand.addArgs(...newArgs)`: append arguments. -/
def FFmpegCommand.addArgs (c : FFmpegCommand) (newArgs : List String) : FFmpegCommand :=
  { c with args := c.args ++ newArgs }

/-- Source `FFmpegCommand.setInput`: records the path and appends `-i <path>`. -/
def FFmpegCommand.setInput (c : FFmpegCommand) (p : String) : FFmpegCommand :=
  { c with inputPath := some p, args := c.args ++ ["-i", p] }

/-- Source `FFmpegCommand.setOutput`: only records the path; it is appended later
by `validate`. -/
def FFmpegCommand.setOutput (c : FFmpegCommand) (p : String) : FFmpegCommand :=
  { c with outputPath := some p }

/-- Source `FFmpegCommand.addArgument(key, value)`. -/
def FFmpegCommand.addArgument (c : FFmpegCommand) (key value : String) : FFmpegCommand :=
  c.addArgs [key, value]

/-- Source `FFmpegCommand.addFilter(name, value)`: appends `-filter:v name=value`. -/
def FFmpegCommand.addFilter (c : FFmpegCommand) (filterName filterValue : String) : FFmpegCommand :=
  c.addArgs ["-filter:v", filterName ++ "=" ++ filterValue]

/-- Source `FFmpegCommand.addFilters(list)`: appends `-vf a,b,c` when the list is
non-empty. -/
def FFmpegCommand.addFilters (c : FFmpegCommand) (fs : List String) : FFmpegCommand :=
  if fs.length > 0 then c.addArgs ["-vf", joinSep "," fs] else c

/-- Source `FFmpegCommand.validate`: fails with `MissingParameter` when the input
or output path is JavaScript-falsy (`!this.inputPath`), otherwise appends
the recorded output path as the last argument unless it already is the
last argument. -/
def FFmpegCommand.validate (c : FFmpegCommand) : Except FFmpegError FFmpegCommand :=
  if jsFalsy c.inputPath then Except.error (FFmpegError.missingParameter "input")
  else if jsFalsy c.outputPath then Except.error (FFmpegError.missingParameter "output")
  else
    let out := c.outputPath.getD ""
    if c.args.getLast? = some out then Except.ok c
    else Except.ok { c with args := c.args ++ [out] }

/-! ## SpeedOperation (src/operations/SpeedOperation.ts)

The atempo stages are tracked by their numeric value, as exact
rationals.  This is faithful to the source's floating-point loop:
dividing an IEEE double by `2.0` or by `0.5` only changes the exponent
and is exact (the constructor restricts the factor to positive values,
so neither underflow nor overflow is reachable in a meaningful range,
and the spec itself only asks for equality within floating-point
tolerance, which exact rational equality subsumes). -/

/-- First loop of `buildAtempoChain`:
`while (currentFactor > ATEMPO_MAX) { filters.push("atempo=2.0"); currentFactor /= ATEMPO_MAX; }`
Returns the emitted stage values together with the remaining factor. -/
def halveLoop (f : ℚ) : List ℚ × ℚ :=
  if h : 2 < f then
    let rest := halveLoop (f / 2)
    ((2 : ℚ) :: rest.1, rest.2)
  else ([], f)
termination_by ⌈f⌉₊
decreasing_by
  have h3 : 3 ≤ ⌈f⌉₊ := by
    have h2 : (2 : ℕ) < ⌈f⌉₊ := Nat.lt_ceil.mpr (by push_cast; linarith)
    omega
  have hle : f ≤ (⌈f⌉₊ : ℚ) := Nat.le_ceil f
  have hstep : ⌈f / 2⌉₊ ≤ ⌈f⌉₊ - 1 := by
    apply Nat.ceil_le.mpr
    have hc : ((⌈f⌉₊ - 1 : ℕ) : ℚ) = (⌈f⌉₊ : ℚ) - 1 := by
      have h1 : (1 : ℕ) ≤ ⌈f⌉₊ := by omega
      push_cast [h1]
      ring
    rw [hc]
    linarith
  omega

/-- Second loop of `buildAtempoChain`:
`while (currentFactor < ATEMPO_MIN) { filters.push("atempo=0.5"); currentFactor /= ATEMPO_MIN; }`
The source guard is just `currentFactor < 0.5`; the factor is strictly
positive on every reachable call (the `SpeedOperation` constructor
rejects `factor <= 0` and both loops preserve positivity), and the
positivity conjunct in the guard makes termination provable without
changing the function on those inputs. -/
def doubleLoop (f : ℚ) : List ℚ × ℚ :=
  if h : 0 < f ∧ f < 1/2 then
    let rest := doubleLoop (f / (1/2))
    ((1/2 : ℚ) :: rest.1, rest.2)
  else ([], f)
termination_by ⌈1 / f⌉₊
decreasing_by
  obtain ⟨h0, hlt⟩ := h
  have hkey : 1 / (f / (1/2 : ℚ)) = (1 / f) / 2 := by
    field_simp
  rw [hkey]
  have hg : 2 < 1 / f := by
    rw [lt_div_iff₀ h0]
    linarith
  have h3 : 3 ≤ ⌈1 / f⌉₊ := by
    have h2 : (2 : ℕ) < ⌈1 / f⌉₊ := Nat.lt_ceil.mpr (by push_cast; linarith)
    omega
  have hle : 1 / f ≤ (⌈1 / f⌉₊ : ℚ) := Nat.le_ceil (1 / f)
  have h3q : (3 : ℚ) ≤ (⌈1 / f⌉₊ : ℚ) := by exact_mod_cast h3
  have hstep : ⌈(1 / f) / 2⌉₊ ≤ ⌈1 / f⌉₊ - 1 := by
    apply Nat.ceil_le.mpr
    have hc : ((⌈1 / f⌉₊ - 1 : ℕ) : ℚ) = (⌈1 / f⌉₊ : ℚ) - 1 := by
      have h1 : (1 : ℕ) ≤ ⌈1 / f⌉₊ := by omega
      push_cast [h1]
      ring
    rw [hc]
    linarith
  omega

/-- Source `buildAtempoChain(targetFactor)` at the level of stage values: the
early return for factor `1.0`, the halving loop, the doubling loop, and
the final residual stage when it is not `1.0`. -/
def buildAtempoChain (targetFactor : ℚ) : List ℚ :=
  if targetFactor = 1 then []
  else
    let h := halveLoop targetFactor
    let d := doubleLoop h.2
    h.1 ++ d.1 ++ (if d.2 ≠ 1 then [d.2] else [])

/-- Rendering of one atempo stage value as the source pushes it:
`atempo=2.0` and `atempo=0.5` are pushed literally (both by the loops and
by the exact-value branches of the final push), any other residual is
rendered with `toFixed(4)`, abstracted here as `toFixed4`. -/
def atempoStageStr (toFixed4 : ℚ → String) (v : ℚ) : String :=
  if v = 2 then "atempo=2.0"
  else if v = 1/2 then "atempo=0.5"
  else "atempo=" ++ toFixed4 v

/-- Source `SpeedOperation.applyTo(command)`: always adds the video filter
`setpts=PTS/<factor>` (with the literal `1.0` when the factor is `1`),
then adds `-filter:a` with the joined atempo chain when that string is
non-empty (JavaScript string truthiness).  `numStr` abstracts the
template-literal rendering `${this.factor}`. -/
def speedApplyTo (numStr toFixed4 : ℚ → String) (factor : ℚ)
    (command : FFmpegCommand) : FFmpegCommand :=
  let cmd1 := command.addFilter "setpts" ("PTS/" ++ (if factor = 1 then "1.0" else numStr factor))
  let atempoFilterValue := joinSep "," ((buildAtempoChain factor).map (atempoStageStr toFixed4))
  if atempoFilterValue = "" then cmd1
  else cmd1.addArgument "-filter:a" atempoFilterValue

/-! ## FilterChain (src/commands/FilterChain.ts) -/

/-- Source `FilterType`: simple (comma-chainable, `-vf`) or complex (labeled,
`-filter_complex`). -/
inductive FilterType where
  | SIMPLE
  | COMPLEX
deriving DecidableEq, Repr

/-- Source `FilterStream`: a labeled stream endpoint of a filter node. -/
structure FilterStream where
  label : String
  isInput : Bool
  isMain : Bool
deriving DecidableEq, Repr

/-- Source `FilterNode`: one node of the filter graph. -/
structure FilterNode where
  filter : String
  filterType : FilterType
  inputs : List FilterStream
  outputs : List FilterStream
deriving DecidableEq, Repr

/-- The implicit main video stream `[0:v]` used when a node declares no
inputs. -/
def mainVideoStream : FilterStream := { label := "[0:v]", isInput := true, isMain := true }

/-- A stream label as the source interpolates it: `[<pfx><index>]`. -/
def labelStr (pfx : String) (i : Nat) : String := "[" ++ pfx ++ natStr i ++ "]"

/-- Source `FilterChain` state: the ordered node list and the shared label
counter `nextLabelIndex`. -/
structure FilterChain where
  filters : List FilterNode := []
  nextLabelIndex : Nat := 0
deriving DecidableEq, Repr

/-- A fresh `FilterChain` as constructed (`filters = []`,
`nextLabelIndex = 0`). -/
def chainInit : FilterChain := {}

/-- Source `FilterChain.addFilter`, also reporting the temp label it allocates
when the caller supplies no outputs (the source's
`[temp${this.nextLabelIndex++}]`). -/
def FilterChain.addFilterAux (c : FilterChain) (filter : String) (filterType : FilterType)
    (inputs outputs : List FilterStream) : FilterChain × List String :=
  let inputs' := if inputs.isEmpty then [mainVideoStream] else inputs
  match outputs with
  | [] =>
    let lbl := labelStr "temp" c.nextLabelIndex
    ({ filters := c.filters ++ [⟨filter, filterType, inputs', [⟨lbl, false, true⟩]⟩],
       nextLabelIndex := c.nextLabelIndex + 1 }, [lbl])
  | _ =>
    ({ filters := c.filters ++ [⟨filter, filterType, inputs', outputs⟩],
       nextLabelIndex := c.nextLabelIndex }, [])

/-- Source `FilterChain.addFilter` proper (the mutated chain). -/
def FilterChain.addFilter (c : FilterChain) (filter : String)
    (filterType : FilterType := FilterType.SIMPLE)
    (inputs : List FilterStream := []) (outputs : List FilterStream := []) : FilterChain :=
  (c.addFilterAux filter filterType inputs outputs).1

/-- Source `FilterChain.getSimpleFilterString`: comma-joined simple nodes in
insertion order, or null when there are none.  Reads no counter state. -/
def FilterChain.getSimpleFilterString (c : FilterChain) : Option String :=
  let simpleFilters := (c.filters.filter (fun node => node.filterType = FilterType.SIMPLE)).map
    (fun node => node.filter)
  if simpleFilters.length = 0 then none
  else some (joinSep "," simpleFilters)

/-- Source `FilterChain.hasComplexFilters`. -/
def FilterChain.hasComplexFilters (c : FilterChain) : Bool :=
  c.filters.any (fun node => node.filterType = FilterType.COMPLEX)

/-- The loop body of `getComplexFilterString`: walks the node list; for
each complex node it synthesizes `[0:v]<filter>[out<n>]` with a freshly
allocated label (`this.generateLabel("out")`, which increments the shared
counter).  Returns the parts, the synthesized output labels, and the
final counter. -/
def complexPartsAux : List FilterNode → Nat → List String × List String × Nat
  | [], n => ([], [], n)
  | node :: rest, n =>
    match node.filterType with
    | FilterType.COMPLEX =>
      let outputLabel := labelStr "out" n
      let part := "[0:v]" ++ node.filter ++ outputLabel
      let r := complexPartsAux rest (n + 1)
      (part :: r.1, outputLabel :: r.2.1, r.2.2)
    | FilterType.SIMPLE => complexPartsAux rest n

/-- Source `FilterChain.getComplexFilterString`: null unless a complex node
exists; otherwise the `;`-joined parts.  Allocating the output labels
advances `nextLabelIndex`, so the mutated chain is returned as well. -/
def FilterChain.getComplexFilterString (c : FilterChain) : Option String × FilterChain :=
  if c.hasComplexFilters then
    let r := complexPartsAux c.filters c.nextLabelIndex
    (some (joinSep ";" r.1), { c with nextLabelIndex := r.2.2 })
  else (none, c)

/-- Source `FilterChain.getFinalOutputLabel`: `[0:v]` when no complex node
exists, otherwise `[out${this.nextLabelIndex - 1}]`.  The `0` case of the
match renders JavaScript's `0 - 1 = -1`. -/
def FilterChain.getFinalOutputLabel (c : FilterChain) : String :=
  if (c.filters.filter (fun node => node.filterType = FilterType.COMPLEX)).length = 0 then
    "[0:v]"
  else
    match c.nextLabelIndex with
    | 0 => "[out-1]"
    | Nat.succ m => labelStr "out" m

/-- Source `FilterChain.generateLabel(prefix)`: `[<prefix><counter>]`, and the
counter is post-incremented. -/
def FilterChain.generateLabel (c : FilterChain) (pfx : String) : String × FilterChain :=
  (labelStr pfx c.nextLabelIndex, { c with nextLabelIndex := c.nextLabelIndex + 1 })

/-- Source `FilterChain.reset`: clears the node list and restores the counter to
its initial value. -/
def FilterChain.reset (_c : FilterChain) : FilterChain :=
  { filters := [], nextLabelIndex := 0 }

/-! ## FilterChain allocation traces (for the label-uniqueness claim) -/

/-- One public `FilterChain` call, as the repository performs them:
`addFilter`, `generateLabel`, `getComplexFilterString`, or
`getSimpleFilterString`. -/
inductive ChainOp where
  | addF (filter : String) (ft : FilterType) (inputs outputs : List FilterStream)
  | genLabel (pfx : String)
  | renderComplex
  | renderSimple
deriving Repr

/-- The label prefixes actually used by the repository: `addFilter`'s
temp labels and `getComplexFilterString`'s out labels; direct
`generateLabel` calls in the source pass `"out"` (or the default
`"temp"`). -/
def GoodOp : ChainOp → Prop
  | ChainOp.genLabel pfx => pfx = "temp" ∨ pfx = "out"
  | _ => True

/-- Run one call against a chain, also collecting the stream labels it
allocates. -/
def stepChain (c : FilterChain) : ChainOp → FilterChain × List String
  | ChainOp.addF f ft ins outs => c.addFilterAux f ft ins outs
  | ChainOp.genLabel pfx =>
    let r := c.generateLabel pfx
    (r.2, [r.1])
  | ChainOp.renderComplex =>
    ((c.getComplexFilterString).2, (complexPartsAux c.filters c.nextLabelIndex).2.1)
  | ChainOp.renderSimple => (c, [])

/-- Run a sequence of calls, collecting every allocated label in order. -/
def runTrace (c : FilterChain) : List ChainOp → FilterChain × List String
  | [] => (c, [])
  | op :: ops =>
    let r := stepChain c op
    let rest := runTrace r.1 ops
    (rest.1, r.2 ++ rest.2)

/-- Source `AllocRun n m ls`: `ls` is a run of labels allocated at the
consecutive counter values `n, n+1, …, m-1`, each with prefix `temp` or
`out`. -/
inductive AllocRun : Nat → Nat → List String → Prop where
  | nil (n : Nat) : AllocRun n n []
  | cons (n m : Nat) (pfx : String) (ls : List String) :
      (pfx = "temp" ∨ pfx = "out") → AllocRun (n + 1) m ls →
      AllocRun n m (labelStr pfx n :: ls)

/-! ## FFmpegCommandBuilder (src/commands/FFmpegCommandBuilder.ts) -/

/-- Builder state: the accumulated command, the filter chain, the legacy
flat simple-filter list, and the additional (non-primary) inputs. -/
structure Builder where
  command : FFmpegCommand
  filterChain : FilterChain := {}
  filters : List String := []
  additionalInputs : List String := []
  inputPath : Option String := none
  outputPath : Option String := none
deriving DecidableEq, Repr

/-- Source `FFmpegCommandBuilder.withInput`. -/
def Builder.withInput (b : Builder) (input : String) : Builder :=
  { b with inputPath := some input, command := b.command.setInput input }

/-- Source `FFmpegCommandBuilder.addInput`: tracks an additional input and
appends `-i <input>`. -/
def Builder.addInput (b : Builder) (input : String) : Builder :=
  { b with additionalInputs := b.additionalInputs ++ [input],
           command := b.command.addArgs ["-i", input] }

/-- Source `FFmpegCommandBuilder.withOutput` (without output options, which only
append encoding arguments and are unrelated to the rendering claims). -/
def Builder.withOutput (b : Builder) (output : String) : Builder :=
  { b with outputPath := some output, command := b.command.setOutput output }

/-- Source `FFmpegCommandBuilder.addComplexFilter(filter, type)`: registers a
node on the chain (no explicit labels). -/
def Builder.addComplexFilter (b : Builder) (filter : String)
    (filterType : FilterType := FilterType.SIMPLE) : Builder :=
  { b with filterChain := b.filterChain.addFilter filter filterType [] [] }

/-- The argument-emitting part of `FFmpegCommandBuilder.build`, before the
final `validate` call: if the complex render is truthy (non-null and
non-empty) add `-filter_complex <graph>` and `-map <finalOutputLabel>`
(the label read from the chain after rendering mutated it); otherwise
fall back to the legacy flat filter list via `-vf`. -/
def Builder.buildCmd (b : Builder) : FFmpegCommand :=
  let rendered := b.filterChain.getComplexFilterString
  let simpleCmd := if b.filters.length > 0 then b.command.addFilters b.filters else b.command
  match rendered.1 with
  | some s =>
    if s = "" then simpleCmd
    else (b.command.addArgument "-filter_complex" s).addArgument "-map"
      (rendered.2.getFinalOutputLabel)
  | none => simpleCmd

/-- Source `FFmpegCommandBuilder.build`: emit filter arguments, then finalize via
`FFmpegCommand.validate` (which appends the output path). -/
def Builder.build (b : Builder) : Except FFmpegError FFmpegCommand :=
  b.buildCmd.validate

/-! ## OverlayOperation (src/operations/OverlayOperation.ts) -/

/-- The nine predefined anchor positions. -/
inductive Position where
  | TOP_LEFT | TOP | TOP_RIGHT | LEFT | CENTER | RIGHT
  | BOTTOM_LEFT | BOTTOM | BOTTOM_RIGHT
deriving DecidableEq, Repr

/-- Source `OverlayOptions` (src/types): `start`/`end` are the visibility window
bounds in seconds; the TypeScript `end` field is named `endTime` here
because `end` is a Lean keyword. -/
structure OverlayOptions where
  source : String
  position : Option Position := none
  x : Option ℚ := none
  y : Option ℚ := none
  opacity : Option ℚ := none
  scale : Option ℚ := none
  width : Option ℚ := none
  height : Option ℚ := none
  padding : Option ℚ := none
  startTime : Option ℚ := none
  endTime : Option ℚ := none
deriving DecidableEq, Repr

/-- Source `OverlayOperation.validate`: false when the source is falsy or does
not exist on the filesystem oracle `env`, when opacity or scale is out of
range, or when a predefined position is combined with an explicit `x` or
`y`.  It returns `false`; it does not throw. -/
def overlayValidate (env : String → Bool) (o : OverlayOptions) : Bool :=
  if o.source = "" ∨ ¬ env o.source then false
  else if (match o.opacity with
    | some v => decide (v < 0 ∨ 1 < v)
    | none => false) then false
  else if (match o.scale with
    | some v => decide (v ≤ 0)
    | none => false) then false
  else if o.position.isSome ∧ (o.x.isSome ∨ o.y.isSome) then false
  else true

/-- Source `OverlayOperation.getPositionCoordinates`: anchor to `x:y` text, with
`padding || 10`. -/
def overlayPositionCoordinates (numStr : ℚ → String) (o : OverlayOptions)
    (p : Position) : String :=
  let paddingStr := numStr (match o.padding with
    | some v => if v = 0 then 10 else v
    | none => 10)
  match p with
  | Position.TOP_LEFT => paddingStr ++ ":" ++ paddingStr
  | Position.TOP => "(main_w-overlay_w)/2:" ++ paddingStr
  | Position.TOP_RIGHT => "main_w-overlay_w-" ++ paddingStr ++ ":" ++ paddingStr
  | Position.LEFT => paddingStr ++ ":(main_h-overlay_h)/2"
  | Position.CENTER => "(main_w-overlay_w)/2:(main_h-overlay_h)/2"
  | Position.RIGHT => "main_w-overlay_w-" ++ paddingStr ++ ":(main_h-overlay_h)/2"
  | Position.BOTTOM_LEFT => paddingStr ++ ":main_h-overlay_h-" ++ paddingStr
  | Position.BOTTOM => "(main_w-overlay_w)/2:main_h-overlay_h-" ++ paddingStr
  | Position.BOTTOM_RIGHT =>
    "main_w-overlay_w-" ++ paddingStr ++ ":main_h-overlay_h-" ++ paddingStr

/-- Source `OverlayOperation.buildOverlayFilter`: the returned filter text (the
source also computes scale/opacity filter fragments but never uses them
in the returned string).  The `enable` window is appended when either
bound is truthy. -/
def buildOverlayFilter (numStr : ℚ → String) (o : OverlayOptions) : String :=
  let overlayPos :=
    match o.position with
    | some p => overlayPositionCoordinates numStr o p
    | none =>
      match o.x, o.y with
      | some x, some y => numStr x ++ ":" ++ numStr y
      | _, _ => "0:0"
  let overlayTimed :=
    if jsTruthyNum o.startTime || jsTruthyNum o.endTime then
      overlayPos ++ ":enable='between(t,"
        ++ (match o.startTime with | some t => numStr t | none => "0") ++ ","
        ++ (match o.endTime with | some t => numStr t | none => "999999") ++ ")'"
    else overlayPos
  "overlay=" ++ overlayTimed

/-- Source `OverlayOperation.applyTo(builder)`: adds the overlay source as an
additional input, then registers the overlay filter text as a complex
node (the computed input ordinal is not used in the filter text). -/
def overlayApplyTo (numStr : ℚ → String) (o : OverlayOptions) (b : Builder) : Builder :=
  (b.addInput o.source).addComplexFilter (buildOverlayFilter numStr o) FilterType.COMPLEX

/-- Source `FFmpegCommandBuilder.addOperation` specialised to an overlay
operation: `if (operation.validate()) { operation.applyTo(this.command) }`
— an invalid operation is skipped, not raised. -/
def addOverlayOperation (env : String → Bool) (numStr : ℚ → String)
    (b : Builder) (o : OverlayOptions) : Builder :=
  if overlayValidate env o then overlayApplyTo numStr o b else b

/-! ## TextOperation (drawtext) -/

/-- Source `TextOptions`: the drawtext parameters. -/
structure TextOptions where
  text : String
  fontFile : Option String := none
  fontSize : Option ℚ := none
  fontColor : Option String := none
  backgroundColor : Option String := none
  boxBorder : Option ℚ := none
  position : Option Position := none
  x : Option ℚ := none
  y : Option ℚ := none
  padding : Option ℚ := none
  startTime : Option ℚ := none
  endTime : Option ℚ := none
deriving DecidableEq, Repr

/-- Source `TextOperation.validate`: false for an empty/whitespace text, for a
predefined position combined with explicit `x`/`y`, or a non-positive
font size.  Returns `false`; does not throw. -/
def textValidate (o : TextOptions) : Bool :=
  if o.text.trim = "" then false
  else if o.position.isSome ∧ (o.x.isSome ∨ o.y.isSome) then false
  else if (match o.fontSize with
    | some v => decide (v ≤ 0)
    | none => false) then false
  else true

/-- The drawtext payload escaping, exactly as `buildTextFilter` performs
it: first every `:` becomes `\:`, then every `'` becomes `\'`, then every
`\` becomes `\\` — three sequential global replaces in that order. -/
def escapeText (s : String) : String :=
  String.mk (replaceChar '\\' ['\\', '\\']
    (replaceChar '\'' ['\\', '\'']
      (replaceChar ':' ['\\', ':'] s.data)))

/-- Source `TextOperation.getPositionCoordinates`: anchor to `:x=..:y=..` text,
with `padding || 10`. -/
def textPositionCoordinates (numStr : ℚ → String) (o : TextOptions)
    (p : Position) : String :=
  let paddingStr := numStr (match o.padding with
    | some v => if v = 0 then 10 else v
    | none => 10)
  match p with
  | Position.TOP_LEFT => ":x=" ++ paddingStr ++ ":y=" ++ paddingStr
  | Position.TOP => ":x=(w-text_w)/2:y=" ++ paddingStr
  | Position.TOP_RIGHT => ":x=w-text_w-" ++ paddingStr ++ ":y=" ++ paddingStr
  | Position.LEFT => ":x=" ++ paddingStr ++ ":y=(h-text_h)/2"
  | Position.CENTER => ":x=(w-text_w)/2:y=(h-text_h)/2"
  | Position.RIGHT => ":x=w-text_w-" ++ paddingStr ++ ":y=(h-text_h)/2"
  | Position.BOTTOM_LEFT => ":x=" ++ paddingStr ++ ":y=h-text_h-" ++ paddingStr
  | Position.BOTTOM => ":x=(w-text_w)/2:y=h-text_h-" ++ paddingStr
  | Position.BOTTOM_RIGHT => ":x=w-text_w-" ++ paddingStr ++ ":y=h-text_h-" ++ paddingStr

/-- Source `TextOperation.buildTextFilter`: the full drawtext filter text. -/
def buildTextFilter (numStr : ℚ → String) (o : TextOptions) : String :=
  let f1 := "drawtext=" ++ "text='" ++ escapeText o.text ++ "'"
  let f2 := if jsTruthyStr o.fontFile then
      f1 ++ ":fontfile='" ++ o.fontFile.getD "" ++ "'"
    else f1
  let f3 := f2 ++ ":fontsize=" ++ (match o.fontSize with
    | some v => if v = 0 then numStr 24 else numStr v
    | none => numStr 24)
  let f4 := f3 ++ ":fontcolor=" ++ (match o.fontColor with
    | some col => if col = "" then "white" else col
    | none => "white")
  let f5 := if jsTruthyStr o.backgroundColor then
      f4 ++ ":box=1:boxcolor=" ++ o.backgroundColor.getD ""
        ++ (if jsTruthyNum o.boxBorder then
              ":boxborderw=" ++ numStr (o.boxBorder.getD 0)
            else "")
    else f4
  let f6 := f5 ++ (match o.position with
    | some p => textPositionCoordinates numStr o p
    | none =>
      match o.x, o.y with
      | some x, some y => ":x=" ++ numStr x ++ ":y=" ++ numStr y
      | _, _ => ":x=(w-text_w)/2:y=(h-text_h)/2")
  if jsTruthyNum o.startTime || jsTruthyNum o.endTime then
    f6 ++ ":enable='between(t,"
      ++ (match o.startTime with | some t => numStr t | none => "0") ++ ","
      ++ (match o.endTime with | some t => numStr t | none => "999999") ++ ")'"
  else f6

/-- Source `TextOperation.applyTo` against a builder: registers the drawtext
filter as a complex node. -/
def textApplyTo (numStr : ℚ → String) (o : TextOptions) (b : Builder) : Builder :=
  b.addComplexFilter (buildTextFilter numStr o) FilterType.COMPLEX

/-- Source `FFmpegCommandBuilder.addOperation` specialised to a text operation:
invalid operations are skipped, not raised. -/
def addTextOperation (numStr : ℚ → String) (b : Builder) (o : TextOptions) : Builder :=
  if textValidate o then textApplyTo numStr o b else b

/-! ## ConcatOperation (utils/index.ts, second document) -/

/-- Source `ConcatOptions`. -/
structure ConcatOptions where
  inputs : List String
  strategy : Option String := none
  videoOnly : Option Bool := none
deriving DecidableEq, Repr

/-- Source `ConcatOperation.validateOptions` (run by the constructor): an empty
input list raises `InvalidParameter("inputs")`, the first nonexistent
input path (per the filesystem oracle `env`) raises `InputFileError`, and
a truthy strategy string other than `demuxer`/`filter` raises
`InvalidParameter("strategy")` (a falsy strategy is skipped and later
defaulted to `filter`). -/
def concatValidateOptions (env : String → Bool) (o : ConcatOptions) :
    Except FFmpegError Unit :=
  if o.inputs.length = 0 then
    Except.error (FFmpegError.invalidParameter "inputs"
      "ConcatOperation requires at least one input file")
  else
    match o.inputs.find? (fun p => ¬ env p) with
    | some p => Except.error (FFmpegError.inputFile p ("File does not exist: " ++ p))
    | none =>
      if jsTruthyStr o.strategy ∧ ¬ (o.strategy = some "demuxer" ∨ o.strategy = some "filter") then
        Except.error (FFmpegError.invalidParameter "strategy"
          "Strategy must be either 'demuxer' or 'filter'")
      else Except.ok ()

/-- The concat filter-graph string: the per-input stream labels followed
by the `concat` filter, in video-only or video+audio form. -/
def concatFilterComplex (videoOnly : Bool) (n : Nat) : String :=
  if videoOnly then
    String.join ((List.range n).map (fun i => "[" ++ natStr i ++ ":v]"))
      ++ "concat=n=" ++ natStr n ++ ":v=1[outv]"
  else
    String.join ((List.range n).map (fun i => "[" ++ natStr i ++ ":v][" ++ natStr i ++ ":a]"))
      ++ "concat=n=" ++ natStr n ++ ":v=1:a=1[outv][outa]"

/-- Source `ConcatOperation.applyFilterStrategy`: the first input via `setInput`,
the rest via `-i`; then the filter graph, the `[outv]` map, and either
`-an` (video-only) or the `[outa]` map. -/
def concatApplyFilter (o : ConcatOptions) (cmd : FFmpegCommand) : FFmpegCommand :=
  let cmd1 := match o.inputs with
    | [] => cmd
    | first :: rest => rest.foldl (fun c i => c.addArgument "-i" i) (cmd.setInput first)
  let videoOnly := o.videoOnly = some true
  let fc := concatFilterComplex videoOnly o.inputs.length
  if videoOnly then
    ((cmd1.addArgument "-filter_complex" fc).addArgument "-map" "[outv]").addArgs ["-an"]
  else
    ((cmd1.addArgument "-filter_complex" fc).addArgument "-map" "[outv]").addArgument
      "-map" "[outa]"

/-- One line of the concat demuxer list file:
`file '<resolved path with each quote replaced by '\''>'`. -/
def concatFileLine (resolveP : String → String) (input : String) : String :=
  "file '" ++ String.mk (replaceChar '\'' ['\'', '\\', '\'', '\''] (resolveP input).data) ++ "'"

/-- Source `ConcatOperation.applyDemuxerStrategy`: writes the newline-joined list
file (content returned as the second component; `resolveP` abstracts
`path.resolve`, `tempPath` the generated temp-file name), then emits
`-f concat -safe 0`, the list file as input, and `-c copy`. -/
def concatApplyDemuxer (resolveP : String → String) (tempPath : String)
    (o : ConcatOptions) (cmd : FFmpegCommand) : FFmpegCommand × String :=
  let fileContent := joinSep "\n" (o.inputs.map (concatFileLine resolveP))
  ((((cmd.addArgument "-f" "concat").addArgument "-safe" "0").setInput tempPath).addArgument
      "-c" "copy",
    fileContent)

/-- Source `ConcatOperation.applyTo`: strategy dispatch (the constructor defaults
a falsy strategy to `filter`; `applyTo` compares against `demuxer`). -/
def concatApplyTo (resolveP : String → String) (tempPath : String)
    (o : ConcatOptions) (cmd : FFmpegCommand) : FFmpegCommand × Option String :=
  if o.strategy = some "demuxer" then
    let r := concatApplyDemuxer resolveP tempPath o cmd
    (r.1, some r.2)
  else (concatApplyFilter o cmd, none)

/-- Per-character description of the drawtext escaping that
`buildTextFilter`'s three sequential passes actually implement (used to
state the amended form of the escaping claim): a colon or single quote
comes out preceded by two backslashes (its own escaping backslash is
re-escaped by the final backslash pass), and a backslash is doubled. -/
def escCharTable (c : Char) : List Char :=
  if c = ':' then ['\\', '\\', ':']
  else if c = '\'' then ['\\', '\\', '\'']
  else if c = '\\' then ['\\', '\\']
  else [c]

/-- Source `escCharTable` mapped over a character list. -/
def escAll : List Char → List Char
  | [] => []
  | c :: cs => escCharTable c ++ escAll cs

end NoFFmpeg

namespace NoFFmpeg

/-! # Theorems -/

/-! ## Decimal rendering -/

theorem natDigitsAux_fuel : ∀ f g n : Nat, n < f → n < g →
    natDigitsAux f n = natDigitsAux g n := by
  intro f
  induction f with
  | zero => intro g n hf; omega
  | succ f ih =>
    intro g n hf hg
    cases g with
    | zero => omega
    | succ g =>
      show natDigitsAux (f+1) n = natDigitsAux (g+1) n
      unfold natDigitsAux
      by_cases h10 : n < 10
      · simp [h10]
      · simp only [h10, if_false]
        have hdiv : n / 10 < n := Nat.div_lt_self (by omega) (by omega)
        rw [ih g (n / 10) (by omega) (by omega)]

theorem natDigits_eq (n : Nat) :
    natDigits n =
      if n < 10 then [Nat.digitChar n]
      else natDigits (n / 10) ++ [Nat.digitChar (n % 10)] := by
  show natDigitsAux (n+1) n = _
  unfold natDigitsAux
  by_cases h10 : n < 10
  · simp [h10]
  · simp only [h10, if_false]
    have hdiv : n / 10 < n := Nat.div_lt_self (by omega) (by omega)
    rw [natDigitsAux_fuel n (n / 10 + 1) (n / 10) (by omega) (by omega)]
    rfl

theorem natDigits_ne_nil (n : Nat) : natDigits n ≠ [] := by
  rw [natDigits_eq]
  by_cases h10 : n < 10
  · simp [h10]
  · simp [h10]

theorem digitChar_inj_lt : ∀ a : Nat, a < 10 → ∀ b : Nat, b < 10 →
    Nat.digitChar a = Nat.digitChar b → a = b := by decide

theorem natDigits_inj : ∀ m n : Nat, natDigits m = natDigits n → m = n := by
  intro m
  induction m using Nat.strong_induction_on with
  | _ m ih =>
    intro n h
    rw [natDigits_eq m, natDigits_eq n] at h
    by_cases hm : m < 10 <;> by_cases hn : n < 10
    · simp only [hm, hn, if_true, List.cons.injEq, and_true] at h
      exact digitChar_inj_lt m hm n hn h
    · exfalso
      simp only [hm, hn, if_true, if_false] at h
      have hl := congrArg List.length h
      rw [List.length_append] at hl
      simp only [List.length_singleton] at hl
      have hp := List.length_pos.mpr (natDigits_ne_nil (n / 10))
      omega
    · exfalso
      simp only [hm, hn, if_true, if_false] at h
      have hl := congrArg List.length h
      rw [List.length_append] at hl
      simp only [List.length_singleton] at hl
      have hp := List.length_pos.mpr (natDigits_ne_nil (m / 10))
      omega
    · simp only [hm, hn, if_false] at h
      have hparts := List.append_inj' h (by rfl)
      have hdiv : m / 10 = n / 10 :=
        ih (m / 10) (Nat.div_lt_self (by omega) (by omega)) (n / 10) hparts.1
      have hmod : m % 10 = n % 10 := by
        have hc : Nat.digitChar (m % 10) = Nat.digitChar (n % 10) := by
          have h2 := hparts.2
          simpa using h2
        exact digitChar_inj_lt (m % 10) (Nat.mod_lt m (by omega)) (n % 10)
          (Nat.mod_lt n (by omega)) hc
      omega

theorem natStr_inj : ∀ m n : Nat, natStr m = natStr n → m = n := by
  intro m n h
  apply natDigits_inj
  have h2 := congrArg String.data h
  simpa [natStr] using h2

/-! ## joinSep -/

theorem joinSep_cons_exists (sep x : String) (rest : List String) :
    ∃ t, joinSep sep (x :: rest) = x ++ t := by
  cases rest with
  | nil => exact ⟨"", by simp [joinSep]⟩
  | cons y ys => exact ⟨sep ++ joinSep sep (y :: ys), by simp [joinSep, String.append_assoc]⟩

theorem joinSep_ne_empty (sep x : String) (rest : List String) (hx : x ≠ "") :
    joinSep sep (x :: rest) ≠ "" := by
  obtain ⟨t, ht⟩ := joinSep_cons_exists sep x rest
  rw [ht]
  intro hcontra
  apply hx
  have hl := congrArg String.length hcontra
  rw [String.length_append] at hl
  have hx0 : x.length = 0 := by
    have : ("" : String).length = 0 := rfl
    omega
  cases x with
  | mk data =>
    cases data with
    | nil => rfl
    | cons a as => simp [String.length] at hx0

/-! ## SpeedOperation: the atempo decomposition (C1, C10) -/

theorem halveLoop_eq (f : ℚ) : halveLoop f =
    if 2 < f then ((2 : ℚ) :: (halveLoop (f / 2)).1, (halveLoop (f / 2)).2)
    else ([], f) := by
  rw [halveLoop]
  split <;> rfl

theorem doubleLoop_eq (f : ℚ) : doubleLoop f =
    if 0 < f ∧ f < 1/2 then
      ((1/2 : ℚ) :: (doubleLoop (f / (1/2))).1, (doubleLoop (f / (1/2))).2)
    else ([], f) := by
  rw [doubleLoop]
  split <;> rfl

theorem halveLoop_id (f : ℚ) (h : ¬ 2 < f) : halveLoop f = ([], f) := by
  rw [halveLoop_eq]
  simp [h]

theorem doubleLoop_id (f : ℚ) (h : ¬ (0 < f ∧ f < 1/2)) : doubleLoop f = ([], f) := by
  rw [doubleLoop_eq]
  simp only [h, if_false]

theorem halveLoop_prod (f : ℚ) : (halveLoop f).1.prod * (halveLoop f).2 = f := by
  induction f using halveLoop.induct with
  | case1 f h ih =>
    rw [halveLoop_eq, if_pos h]
    simp only [List.prod_cons]
    rw [mul_assoc, ih]
    ring
  | case2 f h =>
    rw [halveLoop_eq, if_neg h]
    simp

theorem doubleLoop_prod (f : ℚ) : (doubleLoop f).1.prod * (doubleLoop f).2 = f := by
  induction f using doubleLoop.induct with
  | case1 f h ih =>
    rw [doubleLoop_eq, if_pos h]
    simp only [List.prod_cons]
    rw [mul_assoc, ih]
    ring
  | case2 f h =>
    rw [doubleLoop_eq, if_neg h]
    simp

theorem buildAtempoChain_prod (f : ℚ) : (buildAtempoChain f).prod = f := by
  by_cases h1 : f = 1
  · subst h1
    simp [buildAtempoChain]
  · unfold buildAtempoChain
    rw [if_neg h1]
    have hh := halveLoop_prod f
    have hd := doubleLoop_prod (halveLoop f).2
    by_cases h2 : (doubleLoop (halveLoop f).2).2 = 1
    · simp only [h2, ne_eq, not_true_eq_false, if_false, List.prod_append]
      rw [h2] at hd
      rw [mul_one] at hd
      simp only [List.prod_nil, mul_one]
      rw [hd]
      exact hh
    · simp only [h2, ne_eq, not_false_eq_true, if_true, List.prod_append]
      simp only [List.prod_cons, List.prod_nil, mul_one]
      linear_combination hh + (halveLoop f).1.prod * hd

theorem buildAtempoChain_single (f : ℚ) (hlow : 1/2 ≤ f) (hhigh : f ≤ 2) (hne : f ≠ 1) :
    buildAtempoChain f = [f] := by
  unfold buildAtempoChain
  rw [if_neg hne]
  rw [halveLoop_id f (by linarith)]
  simp only
  rw [doubleLoop_id f (by intro hc; linarith [hc.2])]
  simp [hne]

theorem buildAtempoChain_four : buildAtempoChain 4 = [2, 2] := by
  have e2 : halveLoop (2 : ℚ) = ([], 2) := halveLoop_id 2 (by norm_num)
  have e1 : halveLoop (4 : ℚ) = ([2], 2) := by
    rw [halveLoop_eq, if_pos (by norm_num : (2:ℚ) < 4)]
    norm_num [e2]
  have e3 : doubleLoop (2 : ℚ) = ([], 2) := doubleLoop_id 2 (by norm_num)
  unfold buildAtempoChain
  rw [if_neg (by norm_num : (4:ℚ) ≠ 1)]
  rw [e1]
  simp only
  rw [e3]
  norm_num

theorem buildAtempoChain_quarter : buildAtempoChain (1/4) = [1/2, 1/2] := by
  have e2 : doubleLoop (1/2 : ℚ) = ([], 1/2) := doubleLoop_id (1/2) (by norm_num)
  have e1 : doubleLoop (1/4 : ℚ) = ([1/2], 1/2) := by
    rw [doubleLoop_eq, if_pos (by norm_num : (0:ℚ) < 1/4 ∧ (1/4:ℚ) < 1/2)]
    norm_num [e2]
  have e3 : halveLoop (1/4 : ℚ) = ([], 1/4) := halveLoop_id (1/4) (by norm_num)
  unfold buildAtempoChain
  rw [if_neg (by norm_num : (1/4:ℚ) ≠ 1)]
  rw [e3]
  simp only
  rw [e1]
  norm_num

theorem buildAtempoChain_three_point_five : buildAtempoChain (7/2) = [2, 7/4] := by
  have e2 : halveLoop (7/4 : ℚ) = ([], 7/4) := halveLoop_id (7/4) (by norm_num)
  have e1 : halveLoop (7/2 : ℚ) = ([2], 7/4) := by
    rw [halveLoop_eq, if_pos (by norm_num : (2:ℚ) < 7/2)]
    norm_num [e2]
  have e3 : doubleLoop (7/4 : ℚ) = ([], 7/4) := doubleLoop_id (7/4) (by norm_num)
  unfold buildAtempoChain
  rw [if_neg (by norm_num : (7/2:ℚ) ≠ 1)]
  rw [e1]
  simp only
  rw [e3]
  norm_num

/-- C1: for every positive factor, the atempo stage values emitted by
`SpeedOperation.applyTo` multiply exactly to the factor (exact rational
equality, which subsumes the spec's floating-point tolerance); the factor
`1` emits no stage; a factor in `[0.5, 2]` other than `1` emits exactly
the one stage with that value; and `4`, `0.25`, `3.5` emit `[2,2]`,
`[0.5,0.5]`, `[2,1.75]` respectively. -/
theorem speed_atempo_decomposition (f : ℚ) (hf : 0 < f) :
    (buildAtempoChain f).prod = f ∧
    (f = 1 → buildAtempoChain f = []) ∧
    (1/2 ≤ f → f ≤ 2 → f ≠ 1 → buildAtempoChain f = [f]) ∧
    buildAtempoChain 4 = [2, 2] ∧
    buildAtempoChain (1/4) = [1/2, 1/2] ∧
    buildAtempoChain (7/2) = [2, 7/4] := by
  refine ⟨buildAtempoChain_prod f, ?_, ?_, buildAtempoChain_four,
    buildAtempoChain_quarter, buildAtempoChain_three_point_five⟩
  · intro h1
    subst h1
    simp [buildAtempoChain]
  · intro hlow hhigh hne
    exact buildAtempoChain_single f hlow hhigh hne

/-- Witness for C1 at the concrete factor `3`. -/
theorem speed_atempo_decomposition_witness :
    (0:ℚ) < 3 ∧ (buildAtempoChain 3).prod = 3 :=
  ⟨by norm_num, (speed_atempo_decomposition 3 (by norm_num)).1⟩

theorem atempoStageStr_ne_empty (toFixed4 : ℚ → String) (v : ℚ) :
    atempoStageStr toFixed4 v ≠ "" := by
  unfold atempoStageStr
  split_ifs
  · decide
  · decide
  · intro hcontra
    have hl := congrArg String.length hcontra
    rw [String.length_append] at hl
    have h7 : ("atempo=" : String).length = 7 := rfl
    have h0 : ("" : String).length = 0 := rfl
    omega

theorem buildAtempoChain_ne_nil (f : ℚ) (hf : 0 < f) (hne : f ≠ 1) :
    buildAtempoChain f ≠ [] := by
  intro hcontra
  have hp := buildAtempoChain_prod f
  rw [hcontra] at hp
  simp at hp
  exact hne hp.symm

/-- C10: `SpeedOperation.applyTo` always emits the video timestamp filter
`-filter:v setpts=PTS/<factor>`; at factor `1` it emits the literal
`setpts=PTS/1.0` and only the audio `-filter:a` argument is suppressed;
at any other positive factor the audio argument is emitted as well. -/
theorem speed_video_filter_always_emitted (numStr toFixed4 : ℚ → String)
    (f : ℚ) (hf : 0 < f) (cmd : FFmpegCommand) :
    (∃ tail, (speedApplyTo numStr toFixed4 f cmd).args
      = cmd.args ++ ["-filter:v", "setpts=" ++ ("PTS/" ++ (if f = 1 then "1.0" else numStr f))] ++ tail) ∧
    (speedApplyTo numStr toFixed4 1 cmd).args
      = cmd.args ++ ["-filter:v", "setpts=" ++ "PTS/1.0"] ∧
    (f ≠ 1 → (speedApplyTo numStr toFixed4 f cmd).args
      = cmd.args ++ ["-filter:v", "setpts=" ++ ("PTS/" ++ numStr f), "-filter:a",
          joinSep "," ((buildAtempoChain f).map (atempoStageStr toFixed4))]) := by
  refine ⟨?_, ?_, ?_⟩
  · unfold speedApplyTo
    simp only
    split
    · exact ⟨[], by simp [FFmpegCommand.addFilter, FFmpegCommand.addArgs]⟩
    · exact ⟨["-filter:a",
        joinSep "," ((buildAtempoChain f).map (atempoStageStr toFixed4))], by
        simp [FFmpegCommand.addFilter, FFmpegCommand.addArgs, FFmpegCommand.addArgument]⟩
  · unfold speedApplyTo
    have hchain : buildAtempoChain 1 = [] := by simp [buildAtempoChain]
    rw [hchain]
    simp [joinSep, FFmpegCommand.addFilter, FFmpegCommand.addArgs]
  · intro hne
    unfold speedApplyTo
    have hchain := buildAtempoChain_ne_nil f hf hne
    simp only
    have hjoin : joinSep "," ((buildAtempoChain f).map (atempoStageStr toFixed4)) ≠ "" := by
      cases hc : buildAtempoChain f with
      | nil => exact absurd hc hchain
      | cons v rest =>
        simp only [List.map_cons]
        exact joinSep_ne_empty "," (atempoStageStr toFixed4 v)
          (rest.map (atempoStageStr toFixed4)) (atempoStageStr_ne_empty toFixed4 v)
    rw [if_neg hjoin, if_neg hne]
    simp [FFmpegCommand.addFilter, FFmpegCommand.addArgs, FFmpegCommand.addArgument]

/-- Witness for C10 at factor `2`. -/
theorem speed_video_filter_always_emitted_witness :
    ∃ tail, (speedApplyTo (fun _ => "2") (fun _ => "") 2 ⟨"ffmpeg", none, none, []⟩).args
      = (⟨"ffmpeg", none, none, []⟩ : FFmpegCommand).args
        ++ ["-filter:v", "setpts=" ++ ("PTS/" ++ (if (2:ℚ) = 1 then "1.0" else "2"))] ++ tail :=
  (speed_video_filter_always_emitted (fun _ => "2") (fun _ => "") 2 (by norm_num)
    ⟨"ffmpeg", none, none, []⟩).1

/-! ## FilterChain: counters, rendering and allocation (C2, C5, C6) -/

theorem hasComplex_false_filter_nil (c : FilterChain) (h : c.hasComplexFilters = false) :
    c.filters.filter (fun nd => nd.filterType = FilterType.COMPLEX) = [] := by
  have h0 : c.filters.any (fun nd => nd.filterType = FilterType.COMPLEX) = false := h
  apply List.filter_eq_nil_iff.mpr
  intro nd hnd
  exact List.any_eq_false.mp h0 nd hnd

theorem hasComplex_true_filter_ne_nil (c : FilterChain) (h : c.hasComplexFilters = true) :
    c.filters.filter (fun nd => nd.filterType = FilterType.COMPLEX) ≠ [] := by
  have h0 : c.filters.any (fun nd => nd.filterType = FilterType.COMPLEX) = true := h
  obtain ⟨nd, hnd, hp⟩ := List.any_eq_true.mp h0
  intro hcontra
  have hmem : nd ∈ c.filters.filter (fun nd => nd.filterType = FilterType.COMPLEX) :=
    List.mem_filter.mpr ⟨hnd, hp⟩
  rw [hcontra] at hmem
  exact absurd hmem (List.not_mem_nil nd)

theorem complexPartsAux_counter : ∀ (nodes : List FilterNode) (n : Nat),
    (complexPartsAux nodes n).2.2
      = n + (nodes.filter (fun nd => nd.filterType = FilterType.COMPLEX)).length := by
  intro nodes
  induction nodes with
  | nil => intro n; simp [complexPartsAux]
  | cons node rest ih =>
    intro n
    cases hft : node.filterType
    · simp [complexPartsAux, hft, ih n]
    · simp [complexPartsAux, hft, ih (n + 1)]
      omega

theorem complexPartsAux_labels_length : ∀ (nodes : List FilterNode) (n : Nat),
    (complexPartsAux nodes n).2.1.length
      = (nodes.filter (fun nd => nd.filterType = FilterType.COMPLEX)).length := by
  intro nodes
  induction nodes with
  | nil => intro n; simp [complexPartsAux]
  | cons node rest ih =>
    intro n
    cases hft : node.filterType
    · simp [complexPartsAux, hft, ih n]
    · simp [complexPartsAux, hft, ih (n + 1)]

theorem complexPartsAux_parts_length : ∀ (nodes : List FilterNode) (n : Nat),
    (complexPartsAux nodes n).1.length
      = (nodes.filter (fun nd => nd.filterType = FilterType.COMPLEX)).length := by
  intro nodes
  induction nodes with
  | nil => intro n; simp [complexPartsAux]
  | cons node rest ih =>
    intro n
    cases hft : node.filterType
    · simp [complexPartsAux, hft, ih n]
    · simp [complexPartsAux, hft, ih (n + 1)]

/-- C2 counterexample: on a chain holding one complex node, rendering the
complex filter string twice returns two different strings, and the first
render already advanced the label counter — `getComplexFilterString` is
not idempotent and does advance hidden state. -/
theorem render_not_idempotent_cex :
    (((chainInit.addFilter "overlay=0:0" FilterType.COMPLEX [] []).getComplexFilterString).1
      ≠ ((((chainInit.addFilter "overlay=0:0" FilterType.COMPLEX [] []).getComplexFilterString).2).getComplexFilterString).1)
    ∧ (((chainInit.addFilter "overlay=0:0" FilterType.COMPLEX [] []).getComplexFilterString).2.nextLabelIndex
        ≠ (chainInit.addFilter "overlay=0:0" FilterType.COMPLEX [] []).nextLabelIndex) := by
  decide

/-- C2 (amended): `getSimpleFilterString` is pure, and
`getComplexFilterString` leaves the node list unchanged but advances the
shared label counter by the number of complex nodes on every call, so
repeated complex renders return different strings whenever a complex node
exists; the render functions are idempotent and state-preserving exactly
when no complex node exists. -/
theorem render_functions_state_effects (c : FilterChain) :
    ((c.getComplexFilterString).2).filters = c.filters ∧
    ((c.getComplexFilterString).2).nextLabelIndex
      = c.nextLabelIndex
        + (c.filters.filter (fun nd => nd.filterType = FilterType.COMPLEX)).length ∧
    (c.hasComplexFilters = false → c.getComplexFilterString = (none, c)) ∧
    ((c.getComplexFilterString).2).getSimpleFilterString = c.getSimpleFilterString := by
  have hfilters : ((c.getComplexFilterString).2).filters = c.filters := by
    unfold FilterChain.getComplexFilterString
    split <;> rfl
  refine ⟨hfilters, ?_, ?_, ?_⟩
  · unfold FilterChain.getComplexFilterString
    cases hc : c.hasComplexFilters with
    | true =>
      simp only [hc, if_true]
      exact complexPartsAux_counter c.filters c.nextLabelIndex
    | false =>
      simp only [hc, Bool.false_eq_true, if_false]
      rw [hasComplex_false_filter_nil c hc]
      simp
  · intro hc
    unfold FilterChain.getComplexFilterString
    simp only [hc, Bool.false_eq_true, if_false]
  · unfold FilterChain.getSimpleFilterString
    rw [hfilters]

/-- Witness for C2's amended theorem: on a fresh chain the complex render
returns null and leaves the chain untouched. -/
theorem render_functions_state_effects_witness :
    chainInit.getComplexFilterString = (none, chainInit) :=
  (render_functions_state_effects chainInit).2.2.1 rfl

theorem labelStr_inj_index (p q : String) (i j : Nat)
    (hp : p = "temp" ∨ p = "out") (hq : q = "temp" ∨ q = "out")
    (h : labelStr p i = labelStr q j) : i = j := by
  have hd := congrArg String.data h
  simp only [labelStr, String.data_append] at hd
  have hti : (natStr i).data = natDigits i := rfl
  have htj : (natStr j).data = natDigits j := rfl
  rcases hp with hp | hp <;> rcases hq with hq | hq <;> subst hp <;> subst hq <;>
    simp only [hti, htj] at hd
  · apply natDigits_inj
    have h2 := List.append_cancel_right hd
    have h3 := List.append_cancel_left h2
    exact h3
  · exfalso
    simp [List.cons_append, List.nil_append] at hd
  · exfalso
    simp [List.cons_append, List.nil_append] at hd
  · apply natDigits_inj
    have h2 := List.append_cancel_right hd
    have h3 := List.append_cancel_left h2
    exact h3

theorem allocRun_len : ∀ {n m : Nat} {ls : List String}, AllocRun n m ls → m = n + ls.length := by
  intro n m ls h
  induction h with
  | nil => simp
  | cons n m pfx ls hp hrun ih =>
    simp only [List.length_cons]
    omega

theorem allocRun_mem : ∀ {n m : Nat} {ls : List String}, AllocRun n m ls → ∀ l ∈ ls,
    ∃ pfx i, (pfx = "temp" ∨ pfx = "out") ∧ n ≤ i ∧ i < m ∧ l = labelStr pfx i := by
  intro n m ls h
  induction h with
  | nil => intro l hl; simp at hl
  | cons n m pfx ls hp hrun ih =>
    intro l hl
    rcases List.mem_cons.mp hl with heq | hmem
    · have hlen := allocRun_len hrun
      exact ⟨pfx, n, hp, le_refl n, by omega, heq⟩
    · obtain ⟨q, i, hq, hni, him, he⟩ := ih l hmem
      exact ⟨q, i, hq, by omega, him, he⟩

theorem allocRun_nodup : ∀ {n m : Nat} {ls : List String}, AllocRun n m ls → ls.Nodup := by
  intro n m ls h
  induction h with
  | nil => exact List.nodup_nil
  | cons n m pfx ls hp hrun ih =>
    refine List.nodup_cons.mpr ⟨?_, ih⟩
    intro hmem
    obtain ⟨q, i, hq, hni, _, he⟩ := allocRun_mem hrun _ hmem
    have : n = i := labelStr_inj_index pfx q n i hp hq he
    omega

theorem allocRun_append : ∀ {n m k : Nat} {ls ls' : List String},
    AllocRun n m ls → AllocRun m k ls' → AllocRun n k (ls ++ ls') := by
  intro n m k ls ls' h1 h2
  induction h1 with
  | nil => simpa using h2
  | cons n m pfx ls hp hrun ih => exact AllocRun.cons _ _ _ _ hp (ih h2)

theorem complexPartsAux_allocRun : ∀ (nodes : List FilterNode) (n : Nat),
    AllocRun n (complexPartsAux nodes n).2.2 (complexPartsAux nodes n).2.1 := by
  intro nodes
  induction nodes with
  | nil => intro n; exact AllocRun.nil n
  | cons node rest ih =>
    intro n
    cases hft : node.filterType
    · simpa only [complexPartsAux, hft] using ih n
    · simp only [complexPartsAux, hft]
      exact AllocRun.cons _ _ "out" _ (Or.inr rfl) (ih (n + 1))

theorem stepChain_allocRun (c : FilterChain) (op : ChainOp) (hop : GoodOp op) :
    AllocRun c.nextLabelIndex (stepChain c op).1.nextLabelIndex (stepChain c op).2 := by
  cases op with
  | addF f ft ins outs =>
    cases outs with
    | nil =>
      simp only [stepChain, FilterChain.addFilterAux]
      exact AllocRun.cons _ _ "temp" [] (Or.inl rfl) (AllocRun.nil _)
    | cons o os =>
      simp only [stepChain, FilterChain.addFilterAux]
      exact AllocRun.nil _
  | genLabel pfx =>
    simp only [stepChain, FilterChain.generateLabel]
    exact AllocRun.cons _ _ pfx [] hop (AllocRun.nil _)
  | renderComplex =>
    simp only [stepChain, FilterChain.getComplexFilterString]
    cases hc : c.hasComplexFilters with
    | true =>
      simp only [hc, if_true]
      exact complexPartsAux_allocRun c.filters c.nextLabelIndex
    | false =>
      simp only [hc, Bool.false_eq_true, if_false]
      have hlen := complexPartsAux_labels_length c.filters c.nextLabelIndex
      rw [hasComplex_false_filter_nil c hc] at hlen
      simp only [List.length_nil] at hlen
      rw [List.length_eq_zero.mp hlen]
      exact AllocRun.nil _
  | renderSimple =>
    simp only [stepChain]
    exact AllocRun.nil _

theorem runTrace_allocRun : ∀ (ops : List ChainOp) (c : FilterChain),
    (∀ op ∈ ops, GoodOp op) →
    AllocRun c.nextLabelIndex (runTrace c ops).1.nextLabelIndex (runTrace c ops).2 := by
  intro ops
  induction ops with
  | nil => intro c h; exact AllocRun.nil _
  | cons op ops ih =>
    intro c h
    simp only [runTrace]
    exact allocRun_append (stepChain_allocRun c op (h op (by simp)))
      (ih _ (fun o ho => h o (by simp [ho])))

/-- C5: over any sequence of `FilterChain` calls with the repository's
label prefixes, every allocated stream label embeds a distinct counter
value, so the collected labels contain no duplicate; the counter after
the trace equals the number of labels allocated (one increment per
allocation, strictly increasing); and `reset` restores the
freshly-constructed state (`filters = []`, counter `0`). -/
theorem filterchain_labels_unique (ops : List ChainOp) (hops : ∀ op ∈ ops, GoodOp op) :
    (runTrace chainInit ops).2.Nodup ∧
    (runTrace chainInit ops).1.nextLabelIndex = (runTrace chainInit ops).2.length ∧
    (∀ c : FilterChain, c.reset = chainInit) := by
  have h := runTrace_allocRun ops chainInit hops
  refine ⟨allocRun_nodup h, ?_, fun c => rfl⟩
  have hlen := allocRun_len h
  simpa [chainInit] using hlen

/-- Witness for C5 on a concrete call sequence: add a complex filter (one
temp label), generate an `out` label, render (one more out label). -/
theorem filterchain_labels_unique_witness :
    (runTrace chainInit [ChainOp.addF "overlay=0:0" FilterType.COMPLEX [] [],
      ChainOp.genLabel "out", ChainOp.renderComplex]).2.Nodup ∧
    (runTrace chainInit [ChainOp.addF "overlay=0:0" FilterType.COMPLEX [] [],
      ChainOp.genLabel "out", ChainOp.renderComplex]).1.nextLabelIndex
      = (runTrace chainInit [ChainOp.addF "overlay=0:0" FilterType.COMPLEX [] [],
          ChainOp.genLabel "out", ChainOp.renderComplex]).2.length ∧
    (∀ c : FilterChain, c.reset = chainInit) :=
  filterchain_labels_unique
    [ChainOp.addF "overlay=0:0" FilterType.COMPLEX [] [],
      ChainOp.genLabel "out", ChainOp.renderComplex]
    (by
      intro op hop
      simp only [List.mem_cons, List.mem_singleton] at hop
      rcases hop with rfl | rfl | rfl | h
      · trivial
      · exact Or.inr rfl
      · trivial
      · simp at h)

theorem complexPartsAux_last : ∀ (nodes : List FilterNode) (n : Nat),
    nodes.filter (fun nd => nd.filterType = FilterType.COMPLEX) ≠ [] →
    ∃ lnode,
      (nodes.filter (fun nd => nd.filterType = FilterType.COMPLEX)).getLast? = some lnode ∧
      (complexPartsAux nodes n).2.1.getLast?
        = some (labelStr "out" ((complexPartsAux nodes n).2.2 - 1)) ∧
      (complexPartsAux nodes n).1.getLast?
        = some ("[0:v]" ++ lnode.filter ++ labelStr "out" ((complexPartsAux nodes n).2.2 - 1)) := by
  intro nodes
  induction nodes with
  | nil => intro n h; simp at h
  | cons node rest ih =>
    intro n hne
    cases hft : node.filterType with
    | SIMPLE =>
      have hfe : (node :: rest).filter (fun nd => nd.filterType = FilterType.COMPLEX)
          = rest.filter (fun nd => nd.filterType = FilterType.COMPLEX) := by
        simp [hft]
      have hpe : complexPartsAux (node :: rest) n = complexPartsAux rest n := by
        simp [complexPartsAux, hft]
      rw [hfe, hpe]
      rw [hfe] at hne
      exact ih n hne
    | COMPLEX =>
      have hfe : (node :: rest).filter (fun nd => nd.filterType = FilterType.COMPLEX)
          = node :: rest.filter (fun nd => nd.filterType = FilterType.COMPLEX) := by
        simp [hft]
      have hpe : complexPartsAux (node :: rest) n
          = (("[0:v]" ++ node.filter ++ labelStr "out" n) :: (complexPartsAux rest (n + 1)).1,
             labelStr "out" n :: (complexPartsAux rest (n + 1)).2.1,
             (complexPartsAux rest (n + 1)).2.2) := by
        simp [complexPartsAux, hft, labelStr]
      by_cases hrest : rest.filter (fun nd => nd.filterType = FilterType.COMPLEX) = []
      · have hlab0 : (complexPartsAux rest (n + 1)).2.1 = [] := by
          have hl := complexPartsAux_labels_length rest (n + 1)
          rw [hrest] at hl
          simp only [List.length_nil] at hl
          exact List.length_eq_zero.mp hl
        have hpart0 : (complexPartsAux rest (n + 1)).1 = [] := by
          have hl := complexPartsAux_parts_length rest (n + 1)
          rw [hrest] at hl
          simp only [List.length_nil] at hl
          exact List.length_eq_zero.mp hl
        have hcnt : (complexPartsAux rest (n + 1)).2.2 = n + 1 := by
          have hl := complexPartsAux_counter rest (n + 1)
          rw [hrest] at hl
          simpa using hl
        refine ⟨node, ?_, ?_, ?_⟩
        · rw [hfe, hrest]
          rfl
        · rw [hpe]
          simp [hlab0, hcnt]
        · rw [hpe]
          simp [hpart0, hcnt]
      · obtain ⟨lnode, h1, h2, h3⟩ := ih (n + 1) hrest
        have hlabne : (complexPartsAux rest (n + 1)).2.1 ≠ [] := by
          intro hcontra
          have hl := complexPartsAux_labels_length rest (n + 1)
          rw [hcontra] at hl
          simp only [List.length_nil] at hl
          exact hrest (List.length_eq_zero.mp hl.symm)
        have hpartne : (complexPartsAux rest (n + 1)).1 ≠ [] := by
          intro hcontra
          have hl := complexPartsAux_parts_length rest (n + 1)
          rw [hcontra] at hl
          simp only [List.length_nil] at hl
          exact hrest (List.length_eq_zero.mp hl.symm)
        refine ⟨lnode, ?_, ?_, ?_⟩
        · rw [hfe]
          cases hl : rest.filter (fun nd => nd.filterType = FilterType.COMPLEX) with
          | nil => exact absurd hl hrest
          | cons a as =>
            rw [List.getLast?_cons_cons]
            rw [hl] at h1
            exact h1
        · rw [hpe]
          simp only
          cases hl2 : (complexPartsAux rest (n + 1)).2.1 with
          | nil => exact absurd hl2 hlabne
          | cons a as =>
            rw [List.getLast?_cons_cons]
            rw [hl2] at h2
            exact h2
        · rw [hpe]
          simp only
          cases hl3 : (complexPartsAux rest (n + 1)).1 with
          | nil => exact absurd hl3 hpartne
          | cons a as =>
            rw [List.getLast?_cons_cons]
            rw [hl3] at h3
            exact h3

/-- C6: `getFinalOutputLabel` returns the main stream label `[0:v]` when
no complex node exists; when complex nodes exist and the chain has just
been rendered by `getComplexFilterString` (as `build` does before passing
the label to `-map`), it returns exactly the output label that the render
synthesized for the last complex node. -/
theorem final_output_label_spec (c : FilterChain) :
    (c.hasComplexFilters = false → c.getFinalOutputLabel = "[0:v]") ∧
    (c.hasComplexFilters = true →
      ∃ lnode s,
        (c.filters.filter (fun nd => nd.filterType = FilterType.COMPLEX)).getLast? = some lnode ∧
        (c.getComplexFilterString).1 = some s ∧
        (complexPartsAux c.filters c.nextLabelIndex).2.1.getLast?
          = some (((c.getComplexFilterString).2).getFinalOutputLabel) ∧
        (complexPartsAux c.filters c.nextLabelIndex).1.getLast?
          = some ("[0:v]" ++ lnode.filter
              ++ ((c.getComplexFilterString).2).getFinalOutputLabel)) := by
  constructor
  · intro hc
    unfold FilterChain.getFinalOutputLabel
    rw [hasComplex_false_filter_nil c hc]
    simp
  · intro hc
    have hne := hasComplex_true_filter_ne_nil c hc
    obtain ⟨lnode, h1, h2, h3⟩ := complexPartsAux_last c.filters c.nextLabelIndex hne
    have hrender : c.getComplexFilterString
        = (some (joinSep ";" (complexPartsAux c.filters c.nextLabelIndex).1),
           { c with nextLabelIndex := (complexPartsAux c.filters c.nextLabelIndex).2.2 }) := by
      unfold FilterChain.getComplexFilterString
      simp only [hc, if_true]
    have hkpos : 0 < (c.filters.filter (fun nd => nd.filterType = FilterType.COMPLEX)).length :=
      List.length_pos.mpr hne
    have hcnt := complexPartsAux_counter c.filters c.nextLabelIndex
    have hfl : ((c.getComplexFilterString).2).getFinalOutputLabel
        = labelStr "out" ((complexPartsAux c.filters c.nextLabelIndex).2.2 - 1) := by
      rw [hrender]
      unfold FilterChain.getFinalOutputLabel
      simp only
      rw [if_neg (by
        intro h0
        exact hne (List.length_eq_zero.mp h0))]
      cases hcv : (complexPartsAux c.filters c.nextLabelIndex).2.2 with
      | zero => omega
      | succ m => simp
    exact ⟨lnode, joinSep ";" (complexPartsAux c.filters c.nextLabelIndex).1, h1,
      by rw [hrender], by rw [hfl]; exact h2, by rw [hfl]; exact h3⟩

/-- Witness for C6 on a chain holding one complex node. -/
theorem final_output_label_spec_witness :
    ∃ lnode s,
      ((chainInit.addFilter "overlay=0:0" FilterType.COMPLEX).filters.filter
          (fun nd => nd.filterType = FilterType.COMPLEX)).getLast? = some lnode ∧
      ((chainInit.addFilter "overlay=0:0" FilterType.COMPLEX).getComplexFilterString).1
        = some s ∧
      (complexPartsAux (chainInit.addFilter "overlay=0:0" FilterType.COMPLEX).filters
          (chainInit.addFilter "overlay=0:0" FilterType.COMPLEX).nextLabelIndex).2.1.getLast?
        = some ((((chainInit.addFilter "overlay=0:0"
              FilterType.COMPLEX).getComplexFilterString).2).getFinalOutputLabel) ∧
      (complexPartsAux (chainInit.addFilter "overlay=0:0" FilterType.COMPLEX).filters
          (chainInit.addFilter "overlay=0:0" FilterType.COMPLEX).nextLabelIndex).1.getLast?
        = some ("[0:v]" ++ "overlay=0:0"
            ++ (((chainInit.addFilter "overlay=0:0"
              FilterType.COMPLEX).getComplexFilterString).2).getFinalOutputLabel) := by
  obtain ⟨lnode, s, ha, hb, hcx, hd⟩ :=
    (final_output_label_spec (chainInit.addFilter "overlay=0:0" FilterType.COMPLEX)).2
      (by decide)
  have hval : ((chainInit.addFilter "overlay=0:0" FilterType.COMPLEX).filters.filter
      (fun nd => nd.filterType = FilterType.COMPLEX)).getLast?
      = some (⟨"overlay=0:0", FilterType.COMPLEX, [mainVideoStream],
          [⟨labelStr "temp" 0, false, true⟩]⟩ : FilterNode) := by decide
  have hinj : lnode = ⟨"overlay=0:0", FilterType.COMPLEX, [mainVideoStream],
      [⟨labelStr "temp" 0, false, true⟩]⟩ := by
    have h2 := ha
    rw [hval] at h2
    injection h2 with h3
    exact h3.symm
  refine ⟨lnode, s, ha, hb, hcx, ?_⟩
  rw [hinj] at hd
  simpa using hd


/-! ## Builder.build rendering precedence (C3) and FFmpegCommand.validate (C4) -/

theorem getComplexFilterString_none (c : FilterChain) (hc : c.hasComplexFilters = false) :
    c.getComplexFilterString = (none, c) := by
  unfold FilterChain.getComplexFilterString
  simp only [hc, Bool.false_eq_true, if_false]

theorem head_lbrack_ne (a b : String) (ha : a.data.head? = some '[')
    (hb : b.data.head? = some '-') : a ≠ b := by
  intro h
  rw [h] at ha
  rw [hb] at ha
  exact absurd ha (by decide)

theorem head_some_ne_empty (a : String) (ha : a.data.head? = some '[') : a ≠ "" := by
  intro h
  rw [h] at ha
  exact absurd ha (by decide)

theorem parts_head_lbrack : ∀ (nodes : List FilterNode) (n : Nat) (p : String),
    p ∈ (complexPartsAux nodes n).1 → p.data.head? = some '[' := by
  intro nodes
  induction nodes with
  | nil => intro n p hp; simp [complexPartsAux] at hp
  | cons node rest ih =>
    intro n p hp
    cases hft : node.filterType
    · rw [show complexPartsAux (node :: rest) n = complexPartsAux rest n from by
        simp [complexPartsAux, hft]] at hp
      exact ih n p hp
    · rw [show (complexPartsAux (node :: rest) n).1
          = ("[0:v]" ++ node.filter ++ labelStr "out" n) :: (complexPartsAux rest (n + 1)).1 from by
        simp [complexPartsAux, hft, labelStr]] at hp
      rcases List.mem_cons.mp hp with heq | hmem
      · subst heq
        rw [String.data_append, String.data_append]
        rfl
      · exact ih (n + 1) p hmem

theorem joinSep_head_lbrack (sep x : String) (rest : List String)
    (hx : x.data.head? = some '[') :
    (joinSep sep (x :: rest)).data.head? = some '[' := by
  obtain ⟨t, ht⟩ := joinSep_cons_exists sep x rest
  rw [ht, String.data_append]
  cases hxd : x.data with
  | nil => rw [hxd] at hx; exact absurd hx (by decide)
  | cons a as =>
    rw [hxd] at hx
    simp only [List.head?_cons, Option.some.injEq] at hx
    simp [hx]

theorem finalLabel_head (c : FilterChain) : (c.getFinalOutputLabel).data.head? = some '[' := by
  unfold FilterChain.getFinalOutputLabel
  split
  · rfl
  · cases c.nextLabelIndex with
    | zero => rfl
    | succ m =>
      simp only [labelStr]
      rw [String.data_append, String.data_append, String.data_append]
      rfl

/-- C3: `build` renders complex filters with precedence — whenever the
chain holds a complex node, `build` emits `-filter_complex <graph>`
followed by `-map <finalOutputLabel>` and adds no `-vf` argument (the
accumulated simple filters are silently superseded); with no complex node
and a non-empty simple-filter list it emits `-vf` with the comma-joined
filters instead, and with neither it adds nothing. -/
theorem build_complex_precedence (b : Builder) :
    (b.filterChain.hasComplexFilters = true →
      ∃ s, (b.filterChain.getComplexFilterString).1 = some s ∧ s ≠ "" ∧
        (b.buildCmd).args = b.command.args
          ++ ["-filter_complex", s, "-map",
              ((b.filterChain.getComplexFilterString).2).getFinalOutputLabel] ∧
        "-vf" ∉ (b.buildCmd).args.drop b.command.args.length) ∧
    (b.filterChain.hasComplexFilters = false → 0 < b.filters.length →
      (b.buildCmd).args = b.command.args ++ ["-vf", joinSep "," b.filters]) ∧
    (b.filterChain.hasComplexFilters = false → b.filters = [] →
      (b.buildCmd).args = b.command.args) := by
  refine ⟨?_, ?_, ?_⟩
  · intro hc
    have hne := hasComplex_true_filter_ne_nil b.filterChain hc
    have hpl : 0 < (complexPartsAux b.filterChain.filters b.filterChain.nextLabelIndex).1.length := by
      rw [complexPartsAux_parts_length]
      exact List.length_pos.mpr hne
    have hrender : b.filterChain.getComplexFilterString
        = (some (joinSep ";" (complexPartsAux b.filterChain.filters b.filterChain.nextLabelIndex).1),
           { b.filterChain with
              nextLabelIndex :=
                (complexPartsAux b.filterChain.filters b.filterChain.nextLabelIndex).2.2 }) := by
      unfold FilterChain.getComplexFilterString
      simp only [hc, if_true]
    cases hp : (complexPartsAux b.filterChain.filters b.filterChain.nextLabelIndex).1 with
    | nil => rw [hp] at hpl; simp at hpl
    | cons x rest =>
      have hxhead : x.data.head? = some '[' :=
        parts_head_lbrack b.filterChain.filters b.filterChain.nextLabelIndex x
          (by rw [hp]; exact List.mem_cons_self x rest)
      have hshead : (joinSep ";"
          (complexPartsAux b.filterChain.filters b.filterChain.nextLabelIndex).1).data.head?
          = some '[' := by
        rw [hp]
        exact joinSep_head_lbrack ";" x rest hxhead
      have hsne : joinSep ";"
          (complexPartsAux b.filterChain.filters b.filterChain.nextLabelIndex).1 ≠ "" :=
        head_some_ne_empty _ hshead
      have hargs : (b.buildCmd).args = b.command.args
          ++ ["-filter_complex",
              joinSep ";" (complexPartsAux b.filterChain.filters b.filterChain.nextLabelIndex).1,
              "-map", ((b.filterChain.getComplexFilterString).2).getFinalOutputLabel] := by
        unfold Builder.buildCmd
        rw [hrender]
        simp only [if_neg hsne]
        simp [FFmpegCommand.addArgument, FFmpegCommand.addArgs, List.append_assoc]
      refine ⟨joinSep ";" (complexPartsAux b.filterChain.filters b.filterChain.nextLabelIndex).1,
        by rw [hrender], hsne, hargs, ?_⟩
      rw [hargs, List.drop_left]
      have hlblhead := finalLabel_head ((b.filterChain.getComplexFilterString).2)
      intro hmem
      simp only [List.mem_cons, List.not_mem_nil, or_false] at hmem
      rcases hmem with h1 | h2 | h3 | h4
      · exact absurd h1 (by decide)
      · exact absurd h2.symm (head_lbrack_ne _ "-vf" hshead rfl)
      · exact absurd h3 (by decide)
      · exact absurd h4.symm (head_lbrack_ne _ "-vf" hlblhead rfl)
  · intro hc hlen
    unfold Builder.buildCmd
    rw [getComplexFilterString_none b.filterChain hc]
    simp only [if_pos hlen]
    unfold FFmpegCommand.addFilters
    rw [if_pos hlen]
    simp [FFmpegCommand.addArgs]
  · intro hc hnil
    unfold Builder.buildCmd
    rw [getComplexFilterString_none b.filterChain hc]
    simp [hnil]

/-- Witness for C3: a builder holding one complex node. -/
theorem build_complex_precedence_witness :
    ∃ s, (((⟨⟨"ffmpeg", none, none, []⟩,
        chainInit.addFilter "overlay=0:0" FilterType.COMPLEX, ["scale=640:-1"], [], none, none⟩ :
          Builder)).filterChain.getComplexFilterString).1 = some s ∧ s ≠ "" ∧
      ((⟨⟨"ffmpeg", none, none, []⟩,
        chainInit.addFilter "overlay=0:0" FilterType.COMPLEX, ["scale=640:-1"], [], none, none⟩ :
          Builder)).buildCmd.args
        = (⟨"ffmpeg", none, none, []⟩ : FFmpegCommand).args
          ++ ["-filter_complex", s, "-map",
              ((((⟨⟨"ffmpeg", none, none, []⟩,
                  chainInit.addFilter "overlay=0:0" FilterType.COMPLEX, ["scale=640:-1"], [],
                  none, none⟩ : Builder)).filterChain.getComplexFilterString).2).getFinalOutputLabel]
      ∧ "-vf" ∉ ((⟨⟨"ffmpeg", none, none, []⟩,
          chainInit.addFilter "overlay=0:0" FilterType.COMPLEX, ["scale=640:-1"], [], none, none⟩ :
            Builder)).buildCmd.args.drop
          (⟨"ffmpeg", none, none, []⟩ : FFmpegCommand).args.length := by
  obtain ⟨s, h1, h2, h3, h4⟩ :=
    (build_complex_precedence ⟨⟨"ffmpeg", none, none, []⟩,
      chainInit.addFilter "overlay=0:0" FilterType.COMPLEX, ["scale=640:-1"], [], none, none⟩).1
      (by decide)
  exact ⟨s, h1, h2, h3, h4⟩

/-- C4 counterexample: a command whose input path is recorded as the
empty string (and whose output path is set) is rejected by `validate`
with `MissingParameter`, although neither path is unset — JavaScript
falsiness treats the empty string like a missing value. -/
theorem validate_missing_cex :
    FFmpegCommand.validate ⟨"ffmpeg", some "", some "out.mp4", ["-i", ""]⟩
      = Except.error (FFmpegError.missingParameter "input")
    ∧ (some "" : Option String) ≠ none ∧ (some "out.mp4" : Option String) ≠ none :=
  ⟨rfl, by decide, by decide⟩

/-- C4 (amended): `validate` throws `MissingParameter` iff the input or
output path is unset or recorded as the empty string; when both are
set and non-empty it appends the recorded output path as the final
argument only if it is not already the last token, after success the
output path is the last argument, and validating again returns the same
command unchanged (no duplicated output token). -/
theorem validate_finalization (c : FFmpegCommand) :
    ((∃ e, c.validate = Except.error e) ↔
      (c.inputPath = none ∨ c.inputPath = some "" ∨ c.outputPath = none ∨ c.outputPath = some "")) ∧
    (∀ out, c.outputPath = some out → out ≠ "" →
      c.inputPath ≠ none → c.inputPath ≠ some "" →
      ((c.args.getLast? = some out → c.validate = Except.ok c) ∧
       (c.args.getLast? ≠ some out →
          c.validate = Except.ok { c with args := c.args ++ [out] }) ∧
       (∀ c', c.validate = Except.ok c' →
          c'.args.getLast? = some out ∧ c'.validate = Except.ok c'))) := by
  have hfalsy_in : jsFalsy c.inputPath = true ↔ (c.inputPath = none ∨ c.inputPath = some "") := by
    cases hin : c.inputPath with
    | none => simp [jsFalsy]
    | some s =>
      simp only [jsFalsy, Option.some.injEq]
      constructor
      · intro h
        right
        simpa using h
      · intro h
        rcases h with h | h
        · exact absurd h (by simp)
        · simp [h]
  have hfalsy_out : jsFalsy c.outputPath = true ↔
      (c.outputPath = none ∨ c.outputPath = some "") := by
    cases hout : c.outputPath with
    | none => simp [jsFalsy]
    | some s =>
      simp only [jsFalsy, Option.some.injEq]
      constructor
      · intro h
        right
        simpa using h
      · intro h
        rcases h with h | h
        · exact absurd h (by simp)
        · simp [h]
  constructor
  · constructor
    · rintro ⟨e, he⟩
      unfold FFmpegCommand.validate at he
      by_cases h1 : jsFalsy c.inputPath = true
      · rcases hfalsy_in.mp h1 with h | h
        · exact Or.inl h
        · exact Or.inr (Or.inl h)
      · rw [if_neg (by simpa using h1)] at he
        by_cases h2 : jsFalsy c.outputPath = true
        · rcases hfalsy_out.mp h2 with h | h
          · exact Or.inr (Or.inr (Or.inl h))
          · exact Or.inr (Or.inr (Or.inr h))
        · rw [if_neg (by simpa using h2)] at he
          by_cases hlast : c.args.getLast? = some (c.outputPath.getD "")
          · simp only [hlast, if_true] at he
            exact absurd he (by simp)
          · simp only [hlast, if_false] at he
            exact absurd he (by simp)
    · intro h
      unfold FFmpegCommand.validate
      by_cases h1 : jsFalsy c.inputPath = true
      · rw [if_pos h1]
        exact ⟨FFmpegError.missingParameter "input", rfl⟩
      · rw [if_neg (by simpa using h1)]
        have h2 : jsFalsy c.outputPath = true := by
          apply hfalsy_out.mpr
          rcases h with h | h | h | h
          · exact absurd (hfalsy_in.mpr (Or.inl h)) h1
          · exact absurd (hfalsy_in.mpr (Or.inr h)) h1
          · exact Or.inl h
          · exact Or.inr h
        rw [if_pos h2]
        exact ⟨FFmpegError.missingParameter "output", rfl⟩
  · intro out hout hne hin1 hin2
    have h1 : ¬ jsFalsy c.inputPath = true := by
      intro h
      rcases hfalsy_in.mp h with h | h
      · exact hin1 h
      · exact hin2 h
    have h2 : ¬ jsFalsy c.outputPath = true := by
      intro h
      rcases hfalsy_out.mp h with h | h
      · rw [hout] at h
        exact absurd h (by simp)
      · rw [hout] at h
        simp only [Option.some.injEq] at h
        exact hne h
    have hgetd : c.outputPath.getD "" = out := by rw [hout]; rfl
    have hval : c.validate = if c.args.getLast? = some out then Except.ok c
        else Except.ok { c with args := c.args ++ [out] } := by
      unfold FFmpegCommand.validate
      rw [if_neg h1, if_neg h2]
      simp only [hgetd]
    refine ⟨?_, ?_, ?_⟩
    · intro hlast
      rw [hval, if_pos hlast]
    · intro hlast
      rw [hval, if_neg hlast]
    · intro c' hc'
      rw [hval] at hc'
      by_cases hlast : c.args.getLast? = some out
      · rw [if_pos hlast] at hc'
        have hcc : c' = c := by
          injection hc' with h
          exact h.symm
        subst hcc
        refine ⟨hlast, ?_⟩
        rw [hval, if_pos hlast]
      · rw [if_neg hlast] at hc'
        have hcc : c' = { c with args := c.args ++ [out] } := by
          injection hc' with h
          exact h.symm
        subst hcc
        have hlast2 : ({ c with args := c.args ++ [out] } : FFmpegCommand).args.getLast?
            = some out := by
          simp only
          exact List.getLast?_concat _
        refine ⟨hlast2, ?_⟩
        unfold FFmpegCommand.validate
        rw [if_neg h1, if_neg h2]
        simp only [hgetd, hlast2, if_pos]

/-- Witness for C4's amended theorem: a fully configured command gets its
output appended exactly once. -/
theorem validate_finalization_witness :
    FFmpegCommand.validate ⟨"ffmpeg", some "in.mp4", some "out.mp4", ["-i", "in.mp4"]⟩
      = Except.ok { (⟨"ffmpeg", some "in.mp4", some "out.mp4", ["-i", "in.mp4"]⟩ : FFmpegCommand)
          with args := ["-i", "in.mp4"] ++ ["out.mp4"] } :=
  ((validate_finalization ⟨"ffmpeg", some "in.mp4", some "out.mp4", ["-i", "in.mp4"]⟩).2
    "out.mp4" rfl (by decide) (by decide) (by decide)).2.1 (by decide)


/-! ## Drawtext escaping (C7) -/

theorem replaceChar_append (c : Char) (r l1 l2 : List Char) :
    replaceChar c r (l1 ++ l2) = replaceChar c r l1 ++ replaceChar c r l2 := by
  induction l1 with
  | nil => simp [replaceChar]
  | cons a as ih => simp [replaceChar, ih, List.append_assoc]

theorem escape_passes_eq : ∀ l : List Char,
    replaceChar '\\' ['\\', '\\'] (replaceChar '\'' ['\\', '\'']
      (replaceChar ':' ['\\', ':'] l)) = escAll l := by
  intro l
  induction l with
  | nil => rfl
  | cons a as ih =>
    have hstep : replaceChar ':' ['\\', ':'] (a :: as)
        = (if a = ':' then ['\\', ':'] else [a]) ++ replaceChar ':' ['\\', ':'] as := rfl
    rw [hstep, replaceChar_append, replaceChar_append, ih]
    show _ ++ escAll as = escCharTable a ++ escAll as
    congr 1
    by_cases h1 : a = ':'
    · subst h1
      rfl
    · by_cases h2 : a = '\''
      · subst h2
        rfl
      · by_cases h3 : a = '\\'
        · subst h3
          rfl
        · simp [replaceChar, escCharTable, h1, h2, h3]

/-- C7 counterexample: the payload ":" renders inside the drawtext filter
as two backslashes followed by the colon, not as a single backslash and
the colon — the final backslash pass double-escapes the backslash that
the colon pass introduced. -/
theorem text_escape_order_cex :
    escapeText ":" = "\\\\:" ∧ escapeText ":" ≠ "\\:" := by decide

/-- C7 (amended): the drawtext escaping touches exactly the three
characters colon, single quote and backslash, but the passes run in the
order colon, quote, backslash, so the escaping backslashes introduced by
the first two passes are themselves doubled by the last pass: ":" becomes
backslash-backslash-colon, "'" becomes backslash-backslash-quote, a
backslash is doubled, and every other character is unchanged. -/
theorem text_escape_characterization (s : String) :
    escapeText s = String.mk (escAll s.data) ∧
    escapeText ":" = "\\\\:" ∧ escapeText "'" = "\\\\'" ∧
    escapeText "\\" = "\\\\" ∧ escapeText "abc" = "abc" :=
  ⟨congrArg String.mk (escape_passes_eq s.data), by decide, by decide, by decide, by decide⟩

/-! ## Overlay/Text dual positioning (C8) -/

/-- C8 counterexample: an overlay configured with both a predefined
position and an explicit `x` fails `validate` (which merely returns
`false`) and is then silently skipped by `addOperation` — the builder is
returned unchanged and no typed error is raised anywhere. -/
theorem overlay_dual_position_cex :
    overlayValidate (fun _ => true)
      ⟨"logo.png", some Position.CENTER, some 5, none, none, none, none, none, none,
        none, none⟩ = false ∧
    addOverlayOperation (fun _ => true) (fun _ => "")
      ⟨⟨"ffmpeg", none, none, []⟩, chainInit, [], [], none, none⟩
      ⟨"logo.png", some Position.CENTER, some 5, none, none, none, none, none, none,
        none, none⟩
      = ⟨⟨"ffmpeg", none, none, []⟩, chainInit, [], [], none, none⟩ := by decide

/-- C8 (amended): an Overlay or Text operation configured with both a
predefined position and an explicit coordinate is reported invalid by its
`validate()` (returning `false`, not raising a typed error), and
`addOperation` then skips `applyTo`, leaving the builder's command state
unmodified — the conflicting operation is silently ignored. -/
theorem operation_dual_position_skipped (env : String → Bool) (numStr : ℚ → String)
    (b : Builder) (o : OverlayOptions) (t : TextOptions)
    (ho : o.position.isSome ∧ (o.x.isSome ∨ o.y.isSome))
    (ht : t.position.isSome ∧ (t.x.isSome ∨ t.y.isSome)) :
    overlayValidate env o = false ∧ addOverlayOperation env numStr b o = b ∧
    textValidate t = false ∧ addTextOperation numStr b t = b := by
  have hov : overlayValidate env o = false := by
    unfold overlayValidate
    split_ifs <;> rfl
  have htv : textValidate t = false := by
    unfold textValidate
    split_ifs <;> rfl
  refine ⟨hov, ?_, htv, ?_⟩
  · unfold addOverlayOperation
    rw [hov]
    simp
  · unfold addTextOperation
    rw [htv]
    simp

/-- Witness for C8's amended theorem on concrete conflicting overlay and
text operations. -/
theorem operation_dual_position_skipped_witness :
    overlayValidate (fun _ => true)
      ⟨"a.png", some Position.TOP, none, some 3, none, none, none, none, none,
        none, none⟩ = false ∧
    addOverlayOperation (fun _ => true) (fun _ => "x")
      ⟨⟨"ffmpeg", none, none, []⟩, chainInit, [], [], none, none⟩
      ⟨"a.png", some Position.TOP, none, some 3, none, none, none, none, none,
        none, none⟩
      = ⟨⟨"ffmpeg", none, none, []⟩, chainInit, [], [], none, none⟩ ∧
    textValidate ⟨"Hi", none, none, none, none, none, some Position.CENTER, some 1,
      none, none, none, none⟩ = false ∧
    addTextOperation (fun _ => "x") ⟨⟨"ffmpeg", none, none, []⟩, chainInit, [], [], none, none⟩
      ⟨"Hi", none, none, none, none, none, some Position.CENTER, some 1,
        none, none, none, none⟩
      = ⟨⟨"ffmpeg", none, none, []⟩, chainInit, [], [], none, none⟩ :=
  operation_dual_position_skipped (fun _ => true) (fun _ => "x")
    ⟨⟨"ffmpeg", none, none, []⟩, chainInit, [], [], none, none⟩
    ⟨"a.png", some Position.TOP, none, some 3, none, none, none, none, none, none, none⟩
    ⟨"Hi", none, none, none, none, none, some Position.CENTER, some 1, none, none, none, none⟩
    (by decide) (by decide)

/-! ## ConcatOperation (C9) -/

theorem natStr_length_pos (n : Nat) : 0 < (natStr n).length := by
  have heq : (natStr n).length = (natDigits n).length := rfl
  rw [heq]
  exact List.length_pos.mpr (natDigits_ne_nil n)

theorem concatFilterComplex_ne_outa (vo : Bool) (n : Nat) :
    concatFilterComplex vo n ≠ "[outa]" := by
  intro h
  have hl := congrArg String.length h
  have hd := natStr_length_pos n
  have h6 : ("[outa]" : String).length = 6 := rfl
  unfold concatFilterComplex at hl
  split_ifs at hl
  · rw [String.length_append, String.length_append, String.length_append] at hl
    have h9 : ("concat=n=" : String).length = 9 := rfl
    have h10 : (":v=1[outv]" : String).length = 10 := rfl
    omega
  · rw [String.length_append, String.length_append, String.length_append] at hl
    have h9 : ("concat=n=" : String).length = 9 := rfl
    have h20 : (":v=1:a=1[outv][outa]" : String).length = 20 := rfl
    omega

/-- C9 counterexample: a `ConcatOperation` configured with the empty
string as strategy — a strategy string that is neither `demuxer` nor
`filter` — passes validation without any error (JavaScript falsiness
skips the strategy check; the constructor later defaults it to
`filter`). -/
theorem concat_empty_strategy_cex :
    concatValidateOptions (fun _ => true) ⟨["a.mp4"], some "", none⟩ = Except.ok ()
    ∧ (some "" : Option String) ≠ some "demuxer"
    ∧ (some "" : Option String) ≠ some "filter" :=
  ⟨rfl, by decide, by decide⟩

/-- C9 (amended): concat validation raises `InvalidParameter` for an
empty input list, `InputFileError` for the first nonexistent input, and
`InvalidParameter` for any non-empty strategy string other than `demuxer`
or `filter` (the empty string is skipped and defaulted to `filter`);
the filter strategy in video-only mode emits the filter graph, maps only
`[outv]` with no `[outa]` map, and adds `-an`; the demuxer strategy
writes one quoted, escaped path per line to the list file and issues
`-c copy`. -/
theorem concat_validation_and_strategies (env : String → Bool) (resolveP : String → String)
    (tempPath : String) (o : ConcatOptions) (cmd : FFmpegCommand) :
    (o.inputs = [] → concatValidateOptions env o
        = Except.error (FFmpegError.invalidParameter "inputs"
            "ConcatOperation requires at least one input file")) ∧
    (∀ p, o.inputs.find? (fun q => ¬ env q) = some p → o.inputs ≠ [] →
        concatValidateOptions env o
          = Except.error (FFmpegError.inputFile p ("File does not exist: " ++ p))) ∧
    (∀ s, o.inputs ≠ [] → (∀ p ∈ o.inputs, env p = true) → o.strategy = some s →
        s ≠ "" → s ≠ "demuxer" → s ≠ "filter" →
        concatValidateOptions env o
          = Except.error (FFmpegError.invalidParameter "strategy"
              "Strategy must be either 'demuxer' or 'filter'")) ∧
    (o.videoOnly = some true →
        (concatApplyFilter o cmd).args
          = (match o.inputs with
              | [] => cmd
              | first :: rest =>
                rest.foldl (fun c i => c.addArgument "-i" i) (cmd.setInput first)).args
            ++ ["-filter_complex", concatFilterComplex true o.inputs.length, "-map",
                "[outv]", "-an"] ∧
        "[outa]" ∉ ["-filter_complex", concatFilterComplex true o.inputs.length, "-map",
            "[outv]", "-an"]) ∧
    ((concatApplyDemuxer resolveP tempPath o cmd).2
        = joinSep "\n" (o.inputs.map (concatFileLine resolveP)) ∧
      (∀ input, concatFileLine resolveP input
        = "file '" ++ String.mk (replaceChar '\'' ['\'', '\\', '\'', '\'']
            (resolveP input).data) ++ "'") ∧
      (concatApplyDemuxer resolveP tempPath o cmd).1.args
        = cmd.args ++ ["-f", "concat", "-safe", "0", "-i", tempPath, "-c", "copy"]) := by
  refine ⟨?_, ?_, ?_, ?_, ?_, ?_, ?_⟩
  · intro h
    unfold concatValidateOptions
    rw [if_pos (by rw [h]; rfl)]
  · intro p hfind hnil
    unfold concatValidateOptions
    rw [if_neg (by
      intro h0
      exact hnil (List.length_eq_zero.mp h0))]
    rw [hfind]
  · intro s hnil hall hs hsne h1 h2
    unfold concatValidateOptions
    rw [if_neg (by
      intro h0
      exact hnil (List.length_eq_zero.mp h0))]
    have hnone : o.inputs.find? (fun q => ¬ env q) = none := by
      apply List.find?_eq_none.mpr
      intro x hx
      simp [hall x hx]
    rw [hnone]
    rw [if_pos]
    constructor
    · rw [hs]
      simp [jsTruthyStr, jsFalsy, hsne]
    · intro hcontra
      rcases hcontra with h | h
      · rw [hs] at h
        exact h1 (by injection h)
      · rw [hs] at h
        exact h2 (by injection h)
  · intro hvo
    constructor
    · unfold concatApplyFilter
      simp only [hvo, if_pos]
      simp [FFmpegCommand.addArgument, FFmpegCommand.addArgs, List.append_assoc]
    · intro hmem
      have hfc := concatFilterComplex_ne_outa true o.inputs.length
      simp only [List.mem_cons, List.not_mem_nil, or_false] at hmem
      rcases hmem with h | h | h | h | h
      · exact absurd h (by decide)
      · exact hfc h.symm
      · exact absurd h (by decide)
      · exact absurd h (by decide)
      · exact absurd h (by decide)
  · rfl
  · intro input
    rfl
  · unfold concatApplyDemuxer
    simp [FFmpegCommand.addArgument, FFmpegCommand.addArgs, FFmpegCommand.setInput,
      List.append_assoc]

/-- Witness for C9's amended theorem: an unknown non-empty strategy is
rejected with the typed strategy error. -/
theorem concat_validation_and_strategies_witness :
    concatValidateOptions (fun _ => true) ⟨["a.mp4"], some "demux", none⟩
      = Except.error (FFmpegError.invalidParameter "strategy"
          "Strategy must be either 'demuxer' or 'filter'") :=
  (concat_validation_and_strategies (fun _ => true) (fun s => s) "list.txt"
    ⟨["a.mp4"], some "demux", none⟩ ⟨"ffmpeg", none, none, []⟩).2.2.1 "demux"
    (by decide) (by intro p hp; rfl) rfl (by decide) (by decide) (by decide)

end NoFFmpeg
